import Mathlib

/-!
Verification of the runbyte-mcp gateway against its specification.

The definitions below are shallow embeddings of the Go sources:
  - `internal/sandbox/hostfuncs.go` (callMcpTool host callback),
  - `internal/sandbox/sandbox.go` (ExecuteCode),
  - `internal/client/clienthub.go` and `internal/client/client.go`
    (hub connect, tool filtering, refresh),
  - `internal/session/manager.go` (session registry),
  - the sandbox filesystem (`sandboxfs.go`),
  - `internal/codegen/schema_converter.go` and the TypeScript generator
    (`typescript.go`), together with `internal/strutil`.

Machine integers are modelled as `Int`/`Nat`, Go maps as association
lists (the list order standing for the map's iteration order where the
code ranges over a map), fallible code as `Except`/`Option`, and the
unbounded recursion of the converter as fuel-indexed recursion whose
exhaustion is an explicit error value.
-/

namespace RunbyteMcp

/-! ## JSON values

Go's `encoding/json` decodes `any` into nested `map[string]interface{}`,
`[]interface{}`, `string`, `float64`, `bool`, `nil`.  An object is carried
as its field list; the list order models the iteration order the Go
runtime uses when the code ranges over the map (Go does not fix it).
Numbers are restricted to integers, which covers every value the claims
touch. -/

inductive Json where
  | null : Json
  | bool (b : Bool) : Json
  | num (n : Int) : Json
  | str (s : String) : Json
  | arr (items : List Json) : Json
  | obj (fields : List (String × Json)) : Json
  deriving Repr, Inhabited

/-- Decimal digits of a natural number, accumulator style; the fuel is
always sufficient because `n + 1 > log10 n`. -/
def natToStringAux : Nat → Nat → String → String
  | 0, _, acc => acc
  | fuel + 1, n, acc =>
    if n < 10 then String.singleton (Char.ofNat (48 + n % 10)) ++ acc
    else natToStringAux fuel (n / 10) (String.singleton (Char.ofNat (48 + n % 10)) ++ acc)

/-- Decimal rendering of a natural number. -/
def natToString (n : Nat) : String := natToStringAux (n + 1) n ""

/-- Decimal rendering of an integer (models `fmt`/`encoding/json` output
for integral numbers). -/
def intToString (n : Int) : String :=
  if n < 0 then "-" ++ natToString (-n).toNat else natToString n.toNat

/-- Character-level escaping of quote and backslash. -/
def escapeChars : List Char → List Char
  | [] => []
  | c :: rest =>
    (if c = '"' then ['\\', '"'] else if c = '\\' then ['\\', '\\'] else [c]) ++ escapeChars rest

/-- Escaping applied by `json.Marshal` to the characters that matter
here (quote and backslash). -/
def escapeJsonString (s : String) : String := String.mk (escapeChars s.data)

mutual

/-- Serialization of a JSON value, modelling `json.Marshal`. -/
def Json.render : Json → String
  | .null => "null"
  | .bool b => if b then "true" else "false"
  | .num n => intToString n
  | .str s => "\"" ++ escapeJsonString s ++ "\""
  | .arr items => "[" ++ Json.renderArr items ++ "]"
  | .obj fields => "\x7b" ++ Json.renderObj fields ++ "\x7d"

/-- Comma-separated rendering of array elements. -/
def Json.renderArr : List Json → String
  | [] => ""
  | [j] => Json.render j
  | j :: j' :: rest => Json.render j ++ "," ++ Json.renderArr (j' :: rest)

/-- Comma-separated rendering of object fields. -/
def Json.renderObj : List (String × Json) → String
  | [] => ""
  | [(k, v)] => "\"" ++ escapeJsonString k ++ "\":" ++ Json.render v
  | (k, v) :: p :: rest =>
    "\"" ++ escapeJsonString k ++ "\":" ++ Json.render v ++ "," ++ Json.renderObj (p :: rest)

end

theorem append_left_ne_empty (s t : String) (hs : s ≠ "") : s ++ t ≠ "" := by
  intro h
  apply hs
  have hd := congrArg String.data h
  rw [String.data_append] at hd
  exact String.ext (List.append_eq_nil.mp hd).1

theorem natToStringAux_length_le (fuel : Nat) :
    ∀ (n : Nat) (acc : String), acc.length ≤ (natToStringAux fuel n acc).length := by
  induction fuel with
  | zero => intro n acc; simp [natToStringAux]
  | succ fuel ih =>
    intro n acc
    simp only [natToStringAux]
    split
    · simp [String.length_append]
    · calc acc.length
          ≤ (String.singleton (Char.ofNat (48 + n % 10)) ++ acc).length := by
            simp [String.length_append]
        _ ≤ _ := ih _ _

theorem length_singleton_append (c : Char) (acc : String) :
    (String.singleton c ++ acc).length = 1 + acc.length := by
  rw [String.length_append, String.length_singleton]

theorem natToStringAux_succ_length (fuel n : Nat) (acc : String) :
    acc.length + 1 ≤ (natToStringAux (fuel + 1) n acc).length := by
  simp only [natToStringAux]
  split
  · rw [length_singleton_append]; omega
  · calc acc.length + 1
        ≤ (String.singleton (Char.ofNat (48 + n % 10)) ++ acc).length := by
          rw [length_singleton_append]; omega
      _ ≤ _ := natToStringAux_length_le _ _ _

theorem natToString_ne_empty (n : Nat) : natToString n ≠ "" := by
  have h := natToStringAux_succ_length n n ""
  intro hEq
  rw [show natToString n = natToStringAux (n + 1) n "" from rfl] at hEq
  rw [hEq] at h
  revert h
  decide

theorem intToString_ne_empty (n : Int) : intToString n ≠ "" := by
  unfold intToString
  split
  · exact append_left_ne_empty _ _ (by decide)
  · exact natToString_ne_empty _

theorem Json.render_ne_empty (j : Json) : j.render ≠ "" := by
  cases j with
  | null => simp [Json.render]
  | bool b => cases b <;> simp [Json.render]
  | num n => simpa [Json.render] using intToString_ne_empty n
  | str s =>
    simp only [Json.render, String.append_assoc]
    exact append_left_ne_empty _ _ (by decide)
  | arr items =>
    simp only [Json.render, String.append_assoc]
    exact append_left_ne_empty _ _ (by decide)
  | obj fields =>
    simp only [Json.render, String.append_assoc]
    exact append_left_ne_empty _ _ (by decide)

/-! ## Host callback `callMcpTool` (`internal/sandbox/hostfuncs.go`)

The downstream result type mirrors `mcp.CallToolResult`: a content list,
an optional structured content value, and the is-error flag. -/

/-- One item of a downstream result's content list (`mcp.Content`). -/
inductive McpContent where
  | textContent (text : String) : McpContent
  | imageContent (data mimeType : String) : McpContent
  | resourceContent (uri : String) : McpContent
  deriving Repr, DecidableEq

/-- Downstream tool-call result (`mcp.CallToolResult`). -/
structure CallToolResult where
  content : List McpContent
  structuredContent : Option Json
  isError : Bool
  deriving Repr

/-- Response struct written back to the sandbox (`McpToolResponse`);
`json.Marshal` always emits both fields (no omitempty tags). -/
structure McpToolResponse where
  result : String
  error : String
  deriving Repr, DecidableEq

/-- Outcome of `clientHub.CallTool` as seen inside the host callback:
either a Go error (transport failure, or the server-not-found error the
hub itself builds) or a downstream result. -/
inductive HubCallOutcome where
  | failure (msg : String) : HubCallOutcome
  | success (res : CallToolResult) : HubCallOutcome
  deriving Repr

/-- Embeds `getTextContent` (hostfuncs.go:105-113): the text of the
first `TextContent` item, and `""` when there is none. -/
def getTextContent : List McpContent → String
  | [] => ""
  | .textContent t :: _ => t
  | _ :: rest => getTextContent rest

/-- Spec-side description of "the first text-content item", used to
compare `getTextContent` against the claim's wording. -/
def firstTextContent : List McpContent → Option String
  | [] => none
  | .textContent t :: _ => some t
  | _ :: rest => firstTextContent rest

/-- Embeds the response construction of `createCallMcpToolHostFunc`
(hostfuncs.go:49-99): on a hub error the error message, on a
tool-reported error the first text content, and on success the
re-serialized structured content when present, otherwise the first text
content. -/
def callMcpToolResponse : HubCallOutcome → McpToolResponse
  | .failure msg => { result := "", error := msg }
  | .success res =>
    if res.isError then
      { result := "", error := getTextContent res.content }
    else
      match res.structuredContent with
      | some j => { result := j.render, error := "" }
      | none => { result := getTextContent res.content, error := "" }

/-- Embeds the serialized field list of the response written back to the
plugin: the failure path marshals `map[string]string{"error": ...}`
(only one field), the success path marshals the two-field struct. -/
def callMcpToolResponseFields : HubCallOutcome → List (String × String)
  | .failure msg => [("error", msg)]
  | .success res =>
    [("result", (callMcpToolResponse (.success res)).result),
     ("error", (callMcpToolResponse (.success res)).error)]

/-! ## `Sandbox.ExecuteCode` (`internal/sandbox/sandbox.go:60-90`) -/

/-- Parsed plugin output (`ExecuteCodeResult` in sandbox.go). -/
structure ExecuteCodeResult where
  error : String
  stack : String
  result : String
  deriving Repr, DecidableEq

/-- Outcome of `plugin.Call("executeCode", ...)` as the Go code observes
it: a call error, or an exit code together with the result of
unmarshalling the output bytes. -/
inductive PluginCallResult where
  | failed (msg : String) : PluginCallResult
  | returned (exit : Nat) (parsed : Except String ExecuteCodeResult) : PluginCallResult
  deriving Repr

/-- The alphabet of outcomes `ExecuteCode` can produce, plus the
`execution-timeout` error kind named by the spec (§7).  The extra
constructor exists only so that its absence from the function's range is
a statable property; the embedded code never returns it. -/
inductive ExecOutcome where
  | ok (result : String) : ExecOutcome
  | pluginExecutionFailed (msg : String) : ExecOutcome
  | pluginExitedNonzero (code : Nat) : ExecOutcome
  | unmarshalFailed (msg : String) : ExecOutcome
  | stackMapFailed (msg : String) : ExecOutcome
  | executionThrewWithStack (error mappedStack : String) : ExecOutcome
  | executionThrew (error : String) : ExecOutcome
  | executionTimeout : ExecOutcome
  deriving Repr, DecidableEq

/-- Embeds `Sandbox.ExecuteCode` (sandbox.go:60-90).  `mapStack` models
`sourcemap.Map` (`none` = mapping error).  The function applies no
deadline of any kind: it merely classifies the plugin call's outcome. -/
def executeCode (mapStack : String → Option String) : PluginCallResult → ExecOutcome
  | .failed msg => .pluginExecutionFailed msg
  | .returned exit parsed =>
    if exit ≠ 0 then .pluginExitedNonzero exit
    else
      match parsed with
      | .error msg => .unmarshalFailed msg
      | .ok r =>
        if r.error ≠ "" then
          if r.stack ≠ "" then
            match mapStack r.stack with
            | none => .stackMapFailed r.stack
            | some mapped => .executionThrewWithStack r.error mapped
          else .executionThrew r.error
        else .ok r.result

/-! ## Client hub `Connect` (`internal/client/clienthub.go:52-66`) and the
session registry (`internal/session/manager.go`) -/

/-- Outcome of `NewMcpClient` for one configured server: a connected
client (identified by an id) or a connect failure. -/
inductive OpenResult where
  | ok (clientId : Nat) : OpenResult
  | fail (msg : String) : OpenResult
  deriving Repr, DecidableEq

/-- Observable open/close effects on downstream clients.  `Connect`
emits an open effect per successful `NewMcpClient`; `Close` emits a
close effect per client it closes. -/
inductive HubEffect where
  | openedClient (name : String) (id : Nat) : HubEffect
  | closedClient (name : String) (id : Nat) : HubEffect
  deriving Repr, DecidableEq

/-- Embeds `McpClientHub.Connect` (clienthub.go:52-66).  The input list
carries, per configured server (in map-iteration order), the outcome of
`NewMcpClient`.  Each success is stored in `ch.clients`; the first
failure returns the wrapped error immediately.  The code contains no
call that closes a previously opened client, so the effect trace holds
open effects only. -/
def hubConnect : List (String × OpenResult) → List (String × Nat) →
    List (String × Nat) × Option String × List HubEffect
  | [], clients => (clients, none, [])
  | (name, .ok id) :: rest, clients =>
    let r := hubConnect rest (clients ++ [(name, id)])
    (r.1, r.2.1, .openedClient name id :: r.2.2)
  | (name, .fail msg) :: _, clients =>
    (clients, some ("failed to connect to server \"" ++ name ++ "\": " ++ msg), [])

/-- Session context as far as the connect path is concerned: the id and
the hub's client map. -/
structure SessionCtx where
  sessionId : String
  hubClients : List (String × Nat)
  deriving Repr, DecidableEq

/-- Embeds the create path of `Manager.GetOrCreateSession`
(manager.go:54-103): on an unknown id it builds a fresh hub and calls
`Connect`; a connect error aborts creation without touching the registry
and without closing anything; afterwards `initializeSessionBundleDir`
runs, and only a failure there triggers `clientHub.Close()` (which
closes every stored client). -/
def getOrCreateSession (sessions : List (String × SessionCtx)) (sid : String)
    (connectInput : List (String × OpenResult)) (initBundleOk : Bool) :
    List (String × SessionCtx) × Except String SessionCtx × List HubEffect :=
  match sessions.lookup sid with
  | some s => (sessions, .ok s, [])
  | none =>
    let r := hubConnect connectInput []
    match r.2.1 with
    | some msg => (sessions, .error ("failed to connect client hub: " ++ msg), r.2.2)
    | none =>
      if initBundleOk then
        (sessions ++ [(sid, ⟨sid, r.1⟩)], .ok ⟨sid, r.1⟩, r.2.2)
      else
        (sessions, .error "failed to initialize session bundle directory",
          r.2.2 ++ r.1.map (fun c => .closedClient c.1 c.2))

/-- Session state relevant to `DeleteSession`: whether the hub's
`Close()` call will succeed, and the bundle directory. -/
structure ManagedSession where
  hubCloseOk : Bool
  bundleDir : String
  deriving Repr, DecidableEq

/-- The error `DeleteSession` returns for an unknown session id. -/
def sessionNotFoundMsg (sid : String) : String := "session \"" ++ sid ++ "\" not found"

/-- Embeds `Manager.DeleteSession` (manager.go:113-136): an unknown id
returns the not-found error with the registry untouched; otherwise the
hub is closed (a close failure returns early, keeping the session
registered) and the session is removed. -/
def deleteSession (sessions : List (String × ManagedSession)) (sid : String) :
    List (String × ManagedSession) × Option String :=
  match sessions.lookup sid with
  | none => (sessions, some (sessionNotFoundMsg sid))
  | some s =>
    if s.hubCloseOk then (sessions.filter (fun p => p.1 != sid), none)
    else (sessions, some "failed to close client hub")

/-! ## Reserved-name tool filtering (`internal/client/client.go`,
`internal/client/clienthub.go:149-216`) -/

/-- A downstream tool (`mcp.Tool`): name, description, and optional
input/output schemas carried as decoded JSON. -/
structure Tool where
  name : String
  description : String
  inputSchema : Option Json
  outputSchema : Option Json
  deriving Repr, Inhabited

/-- Embeds the filtering loop that appears identically in
`NewMcpClient` (client.go:101-108), `RefreshServerTools`
(clienthub.go:164-171) and `RefreshAllServerTools`
(clienthub.go:196-203): tools named `export` are skipped. -/
def filterReservedTools (tools : List Tool) : List Tool :=
  tools.filter (fun t => t.name != "export")

/-- Client-visible state: the cached tool list (`McpClient.tools`). -/
structure McpClientState where
  tools : List Tool

/-- Embeds the catalog initialization of `NewMcpClient`: the fetched
list is filtered before being stored. -/
def clientOpen (fetched : List Tool) : McpClientState :=
  ⟨filterReservedTools fetched⟩

/-- Embeds the catalog replacement done by `RefreshServerTools` and
`RefreshAllServerTools`: the re-fetched list is filtered and replaces
`client.tools` wholesale. -/
def clientRefreshTools (_st : McpClientState) (fetched : List Tool) : McpClientState :=
  ⟨filterReservedTools fetched⟩

/-- The client states reachable through the code: an open followed by
any number of refreshes. -/
inductive ClientReachable : McpClientState → Prop where
  | opened (fetched : List Tool) : ClientReachable (clientOpen fetched)
  | refreshed (st : McpClientState) (fetched : List Tool) :
      ClientReachable st → ClientReachable (clientRefreshTools st fetched)

/-- Embeds the grouped map built by `McpClientHub.Tools`
(clienthub.go:95-123): one entry per client, carrying `client.GetTools()`.
`initializeSessionBundleDir` (manager.go:182-220) generates the module
tree from exactly this map, and `ServerTools` returns the same per-client
lists. -/
def hubGroupedTools (clients : List (String × McpClientState)) : List (String × List Tool) :=
  clients.map (fun p => (p.1, p.2.tools))

/-! ## Sandbox filesystem (`internal/sandbox/sandboxfs.go`) -/

/-- Error kinds produced by the sandbox filesystem paths embedded
below. -/
inductive SfsError where
  | emptyPath : SfsError
  | unknownDirectory (dirName : String) : SfsError
  | pathTraversal : SfsError
  | invalidPath : SfsError
  | readOnlyDir (dirName : String) : SfsError
  | fileSizeExceeded (size limit : Int) : SfsError
  | fileCountLimit (limit : Int) : SfsError
  | totalSizeExceeded (wouldBe limit : Int) : SfsError
  | fileNotFound (path : String) : SfsError
  deriving Repr, DecidableEq

/-- Structural list-level prefix test (the kernel can evaluate it,
unlike `String.isPrefixOf`). -/
def listIsPrefixOf : List Char → List Char → Bool
  | [], _ => true
  | _ :: _, [] => false
  | p :: ps, x :: xs => p == x && listIsPrefixOf ps xs

/-- Structural substring test over character lists. -/
def listContainsSub : List Char → List Char → Bool
  | l, pat =>
    if listIsPrefixOf pat l then true
    else
      match l with
      | [] => false
      | _ :: xs => listContainsSub xs pat

/-- Models `strings.Contains s pat` (for the non-empty patterns used by
the code). -/
def strContainsSubstr (s pat : String) : Bool :=
  listContainsSub s.data pat.data

/-- Models `strings.TrimPrefix`. -/
def goTrimPrefix (s p : String) : String :=
  if listIsPrefixOf p.data s.data then String.mk (s.data.drop p.data.length) else s

/-- Split a character list at every slash (models `strings.Split`; the
first segment plus the slash-joined rest equals `strings.SplitN _ _ 2`). -/
def splitSlash : List Char → List (List Char)
  | [] => [[]]
  | x :: xs =>
    match splitSlash xs with
    | [] => [[]]
    | seg :: rest => if x = '/' then [] :: seg :: rest else (x :: seg) :: rest

/-- Join character-list segments with slashes (inverse of `splitSlash`
on the tail segments). -/
def joinSlash : List (List Char) → List Char
  | [] => []
  | [s] => s
  | s :: t :: rest => s ++ '/' :: joinSlash (t :: rest)

/-- Embeds `SandboxFileSystem.parsePath` (sandboxfs.go:92-120): strip a
leading `./` then a leading `/`, split at the first `/` into directory
name and relative path, and require the directory name to be known. -/
def parsePath (dirNames : List String) (userPath : String) : Except SfsError (String × String) :=
  let p := goTrimPrefix (goTrimPrefix userPath "./") "/"
  match splitSlash p.data with
  | [] => .error .emptyPath
  | seg :: rest =>
    let dirName := String.mk seg
    if dirName = "" then .error .emptyPath
    else if dirNames.contains dirName then .ok (dirName, String.mk (joinSlash rest))
    else .error (.unknownDirectory dirName)

/-- Per-directory configuration (`DirectoryConfig`). -/
structure DirectoryConfig where
  name : String
  root : String
  readOnly : Bool
  maxFileSize : Int
  maxFiles : Int
  maxTotalSize : Int
  deriving Repr, DecidableEq

/-- Embeds `Directory.validatePath` (sandboxfs.go:291-312): reject any
relative path containing `..`, resolve the directory root for `""` and
`"."`, then join and confirm the result stays under the root.  The
`filepath.Clean` normalization is not modelled; with `..` already
rejected it cannot move the joined path out from under the root. -/
def validatePath (root relPath : String) : Except SfsError String :=
  if strContainsSubstr relPath ".." then .error .pathTraversal
  else if relPath = "" ∨ relPath = "." then .ok root
  else
    let fullPath := root ++ "/" ++ relPath
    if listIsPrefixOf root.data fullPath.data then .ok fullPath else .error .invalidPath

/-- Running statistics of a directory (`Stats`), fields in source
order. -/
structure Stats where
  totalBytes : Int
  fileCount : Int
  maxFileSize : Int
  deriving Repr, DecidableEq

/-- State of one directory: the on-disk contents (relative path to file
content) plus the running stats. -/
structure DirState where
  files : List (String × String)
  stats : Stats
  deriving Repr, DecidableEq

/-- Models `os.WriteFile`: overwrite an existing entry or append a new
one. -/
def setFile (files : List (String × String)) (p c : String) : List (String × String) :=
  if files.any (fun q => q.1 == p) then
    files.map (fun q => if q.1 == p then (p, c) else q)
  else files ++ [(p, c)]

/-- File count of the on-disk contents. -/
def diskFileCount (files : List (String × String)) : Int := files.length

/-- Aggregate byte count of the on-disk contents. -/
def diskTotalBytes (files : List (String × String)) : Int :=
  (files.map (fun q => (q.2.length : Int))).sum

/-- The stats agree with the directory's on-disk contents (the invariant
named by the spec for file count and aggregate bytes). -/
def statsConsistent (st : DirState) : Prop :=
  st.stats.fileCount = diskFileCount st.files ∧ st.stats.totalBytes = diskTotalBytes st.files

/-- Embeds `Directory.WriteFile` (sandboxfs.go:336-390): validate the
path, check the per-file size limit, read the existing size via
`os.Stat` (absent files count as size 0 — and so do existing empty
files), check the file-count limit for `existingSize == 0`, check the
aggregate limit, write, and update the stats with the same
`existingSize == 0` test deciding whether the count grows. -/
def dirWriteFile (cfg : DirectoryConfig) (st : DirState) (relPath content : String) :
    DirState × Option SfsError :=
  match validatePath cfg.root relPath with
  | .error e => (st, some e)
  | .ok _ =>
    let contentSize : Int := content.length
    if contentSize > cfg.maxFileSize then
      (st, some (.fileSizeExceeded contentSize cfg.maxFileSize))
    else
      let existingSize : Int :=
        match st.files.lookup relPath with
        | some c => c.length
        | none => 0
      if existingSize = 0 ∧ st.stats.fileCount ≥ cfg.maxFiles then
        (st, some (.fileCountLimit cfg.maxFiles))
      else
        let newTotal := st.stats.totalBytes + contentSize - existingSize
        if newTotal > cfg.maxTotalSize then
          (st, some (.totalSizeExceeded newTotal cfg.maxTotalSize))
        else
          ({ files := setFile st.files relPath content,
             stats :=
               { totalBytes := st.stats.totalBytes + contentSize - existingSize,
                 fileCount :=
                   if existingSize = 0 then st.stats.fileCount + 1 else st.stats.fileCount,
                 maxFileSize :=
                   if contentSize > st.stats.maxFileSize then contentSize
                   else st.stats.maxFileSize } }, none)

/-- Embeds `Directory.DeleteFile` (sandboxfs.go:423-449): validate,
stat, remove, then decrement the count and subtract the removed size. -/
def dirDeleteFile (cfg : DirectoryConfig) (st : DirState) (relPath : String) :
    DirState × Option SfsError :=
  match validatePath cfg.root relPath with
  | .error e => (st, some e)
  | .ok _ =>
    match st.files.lookup relPath with
    | none => (st, some (.fileNotFound relPath))
    | some c =>
      ({ files := st.files.filter (fun q => q.1 != relPath),
         stats :=
           { totalBytes := st.stats.totalBytes - c.length,
             fileCount := st.stats.fileCount - 1,
             maxFileSize := st.stats.maxFileSize } }, none)

/-- The four user-facing sandbox filesystem operations. -/
inductive FsOp where
  | read : FsOp
  | write (content : String) : FsOp
  | list : FsOp
  | delete : FsOp
  deriving Repr, DecidableEq

/-- Write and delete are the mutating operations; the read-only flag is
checked for exactly these (sandboxfs.go:147-149, 179-181). -/
def FsOp.isMutating : FsOp → Bool
  | .write _ => true
  | .delete => true
  | _ => false

/-- What an operation does before any disk access: either it is rejected
with an error, or it proceeds into the directory operation proper (whose
first filesystem access comes only after this point). -/
inductive DispatchOutcome where
  | rejected (e : SfsError) : DispatchOutcome
  | proceeded (dirName relPath : String) : DispatchOutcome
  deriving Repr, DecidableEq

/-- Directory lookup in the filesystem's directory map. -/
def findDir (dirs : List DirectoryConfig) (dirName : String) : Option DirectoryConfig :=
  dirs.find? (fun c => c.name == dirName)

/-- Embeds the admission pipeline shared by
`SandboxFileSystem.ReadFile`/`WriteFile`/`ListFiles`/`DeleteFile`
(sandboxfs.go:123-184) composed with the `validatePath` call that opens
every `Directory` operation: `parsePath`, then (for write and delete)
the read-only check, then `validatePath`.  No filesystem access happens
before this pipeline completes. -/
def sfsDispatch (dirs : List DirectoryConfig) (op : FsOp) (userPath : String) :
    DispatchOutcome :=
  match parsePath (dirs.map (fun c => c.name)) userPath with
  | .error e => .rejected e
  | .ok (dirName, relPath) =>
    match findDir dirs dirName with
    | none => .rejected (.unknownDirectory dirName)
    | some cfg =>
      if op.isMutating && cfg.readOnly then .rejected (.readOnlyDir dirName)
      else
        match validatePath cfg.root relPath with
        | .error e => .rejected e
        | .ok _ => .proceeded dirName relPath

/-! ## Supporting lemmas -/

theorem getTextContent_eq_firstText (l : List McpContent) :
    getTextContent l = (firstTextContent l).getD "" := by
  induction l with
  | nil => rfl
  | cons c rest ih => cases c <;> simp [getTextContent, firstTextContent, ih]

/-- The property C1 asserts of every response: exactly one of the two
fields is a non-empty string. -/
def exactlyOneNonEmpty (r : McpToolResponse) : Prop :=
  (r.result ≠ "" ∧ r.error = "") ∨ (r.result = "" ∧ r.error ≠ "")

instance (r : McpToolResponse) : Decidable (exactlyOneNonEmpty r) := by
  unfold exactlyOneNonEmpty; infer_instance

instance (st : DirState) : Decidable (statsConsistent st) := by
  unfold statsConsistent; infer_instance

theorem hubConnect_trace_opens_only (cfgs : List (String × OpenResult)) :
    ∀ (acc : List (String × Nat)) (n : String) (i : Nat),
      HubEffect.closedClient n i ∉ (hubConnect cfgs acc).2.2 := by
  induction cfgs with
  | nil => intro acc n i; simp [hubConnect]
  | cons p rest ih =>
    intro acc n i
    obtain ⟨name, res⟩ := p
    cases res with
    | ok id =>
      simp only [hubConnect, List.mem_cons, not_or]
      exact ⟨by simp, ih _ _ _⟩
    | fail msg => simp [hubConnect]

theorem hubConnect_fails_of_mem_fail (cfgs : List (String × OpenResult)) :
    ∀ (acc : List (String × Nat)),
      (∃ p ∈ cfgs, ∃ msg, p.2 = OpenResult.fail msg) →
      ∃ m, (hubConnect cfgs acc).2.1 = some m := by
  induction cfgs with
  | nil => intro acc h; simp at h
  | cons p rest ih =>
    intro acc h
    obtain ⟨name, res⟩ := p
    cases res with
    | ok id =>
      simp only [hubConnect]
      apply ih
      rcases h with ⟨q, hq, msg, hmsg⟩
      rcases List.mem_cons.mp hq with h1 | h1
      · rw [h1] at hmsg; simp at hmsg
      · exact ⟨q, h1, msg, hmsg⟩
    | fail msg => simp [hubConnect]

theorem lookup_filter_self_none (l : List (String × ManagedSession)) (k : String) :
    (l.filter (fun p => p.1 != k)).lookup k = none := by
  induction l with
  | nil => rfl
  | cons p rest ih =>
    obtain ⟨a, b⟩ := p
    rw [List.filter_cons]
    by_cases hp : a = k
    · have hcond : ((a, b).1 != k) = false := by simp [hp]
      rw [hcond]
      simpa using ih
    · have hcond : ((a, b).1 != k) = true := by simp [hp]
      rw [hcond]
      have hka : (k == a) = false := beq_eq_false_iff_ne.mpr fun he => hp he.symm
      simp only [if_pos]
      simp [List.lookup, hka, ih]

/-! ## Claim theorems -/

/-- C1, counterexample: the claim asserts that exactly one of `result`
and `error` is non-empty in every `callTool` response.  A successful
downstream call (is-error clear) with no structured content and no text
content yields `result = ""` and `error = ""`: both fields empty. -/
theorem callTool_response_exactly_one_cex :
    ¬ exactlyOneNonEmpty (callMcpToolResponse
        (.success { content := [], structuredContent := none, isError := false })) := by
  decide

/-- C1, amended: the two fields are never both non-empty; `error` is
non-empty iff the hub call failed with a non-empty message or the
downstream result has is-error set with a non-empty first text content;
`result` is non-empty iff the call succeeded with is-error clear and the
result carries structured content or a non-empty first text content
(both fields are empty otherwise); and on a hub failure the serialized
response carries only the `error` field. -/
theorem callTool_response_amended (o : HubCallOutcome) :
    (¬ ((callMcpToolResponse o).result ≠ "" ∧ (callMcpToolResponse o).error ≠ "")) ∧
    ((callMcpToolResponse o).error ≠ "" ↔
      ((∃ msg, o = .failure msg ∧ msg ≠ "") ∨
       (∃ res, o = .success res ∧ res.isError = true ∧ getTextContent res.content ≠ ""))) ∧
    ((callMcpToolResponse o).result ≠ "" ↔
      (∃ res, o = .success res ∧ res.isError = false ∧
        (res.structuredContent ≠ none ∨ getTextContent res.content ≠ ""))) ∧
    (∀ msg, o = .failure msg → callMcpToolResponseFields o = [("error", msg)]) := by
  cases o with
  | failure msg =>
    simp [callMcpToolResponse, callMcpToolResponseFields]
  | success res =>
    by_cases hie : res.isError
    · simp [callMcpToolResponse, hie]
    · cases hsc : res.structuredContent with
      | none => simp [callMcpToolResponse, hie, hsc]
      | some j =>
        simp [callMcpToolResponse, hie, hsc, Json.render_ne_empty j]

/-- C1 witness: the amended theorem applied to a concrete hub failure. -/
theorem callTool_response_amended_witness :
    (¬ ((callMcpToolResponse (.failure "boom")).result ≠ "" ∧
        (callMcpToolResponse (.failure "boom")).error ≠ "")) ∧
    callMcpToolResponseFields (.failure "boom") = [("error", "boom")] :=
  ⟨(callTool_response_amended (.failure "boom")).1,
   (callTool_response_amended (.failure "boom")).2.2.2 "boom" rfl⟩

/-- C10: on a successful downstream call (is-error clear) the callback
sets `result` to the serialization of the structured content when it is
present, and otherwise to the text of the first text-content item, which
is the empty string when no text content exists; `error` stays empty. -/
theorem callTool_success_result (res : CallToolResult) (h : res.isError = false) :
    (callMcpToolResponse (.success res)).result =
      (match res.structuredContent with
       | some j => j.render
       | none => (firstTextContent res.content).getD "") ∧
    (callMcpToolResponse (.success res)).error = "" := by
  cases hsc : res.structuredContent with
  | none => simp [callMcpToolResponse, h, hsc, getTextContent_eq_firstText]
  | some j => simp [callMcpToolResponse, h, hsc]

/-- C10 witness: concrete success result with one text item. -/
theorem callTool_success_result_witness :
    (callMcpToolResponse (.success
      { content := [.textContent "hello"], structuredContent := none,
        isError := false })).result = "hello" :=
  (callTool_success_result
    { content := [.textContent "hello"], structuredContent := none, isError := false } rfl).1

/-- C2: `ExecuteCode` classifies the plugin call's outcome into success,
plugin failure, nonzero exit, unmarshal failure, stack-map failure, or a
user error; no code path produces the typed `execution-timeout` error
(no deadline is applied anywhere in the function). -/
theorem executeCode_never_times_out (mapStack : String → Option String)
    (pc : PluginCallResult) : executeCode mapStack pc ≠ ExecOutcome.executionTimeout := by
  cases pc with
  | failed msg => simp [executeCode]
  | returned exit parsed =>
    simp only [executeCode]
    split
    · simp
    · cases parsed with
      | error m => simp
      | ok r =>
        simp only
        split
        · split
          · cases mapStack r.stack <;> simp
          · simp
        · simp

/-- C3, counterexample: with server `a` opening successfully and server
`b` failing, session creation fails but the effect trace contains the
open of `a` and no close of `a`: the claim that every earlier-opened
client is closed is false. -/
theorem connect_failure_close_cex :
    ¬ (∀ n i,
        HubEffect.openedClient n i ∈
          (getOrCreateSession [] "s" [("a", .ok 1), ("b", .fail "boom")] true).2.2 →
        HubEffect.closedClient n i ∈
          (getOrCreateSession [] "s" [("a", .ok 1), ("b", .fail "boom")] true).2.2) := by
  intro h
  have h1 : HubEffect.openedClient "a" 1 ∈
      (getOrCreateSession [] "s" [("a", .ok 1), ("b", .fail "boom")] true).2.2 := by decide
  have h2 := h "a" 1 h1
  revert h2
  decide

/-- C3, amended: when connecting fails for any configured server,
session creation fails and the registry is untouched, but no client is
closed — the clients opened before the failure are simply abandoned with
the discarded hub (`Connect` returns without closing them, and the
manager only calls `Close` when bundle-directory initialization fails
after a successful connect). -/
theorem connect_failure_amended (sessions : List (String × SessionCtx)) (sid : String)
    (input : List (String × OpenResult)) (initOk : Bool)
    (hfresh : sessions.lookup sid = none)
    (hfail : ∃ p ∈ input, ∃ msg, p.2 = OpenResult.fail msg) :
    (getOrCreateSession sessions sid input initOk).1 = sessions ∧
    (∃ m, (getOrCreateSession sessions sid input initOk).2.1 = .error m) ∧
    (∀ n i, HubEffect.closedClient n i ∉ (getOrCreateSession sessions sid input initOk).2.2) := by
  obtain ⟨m, hm⟩ := hubConnect_fails_of_mem_fail input [] hfail
  have key : getOrCreateSession sessions sid input initOk =
      (sessions, Except.error ("failed to connect client hub: " ++ m),
        (hubConnect input []).2.2) := by
    simp only [getOrCreateSession, hfresh, hm]
  rw [key]
  exact ⟨rfl, ⟨_, rfl⟩, fun n i => hubConnect_trace_opens_only input [] n i⟩

/-- C3 witness: the amended theorem at the concrete failing input. -/
theorem connect_failure_amended_witness :
    (getOrCreateSession [] "s" [("a", .ok 1), ("b", .fail "x")] true).1 = [] ∧
    HubEffect.closedClient "a" 1 ∉
      (getOrCreateSession [] "s" [("a", .ok 1), ("b", .fail "x")] true).2.2 :=
  ⟨(connect_failure_amended [] "s" [("a", .ok 1), ("b", .fail "x")] true rfl
      ⟨("b", .fail "x"), by decide, "x", rfl⟩).1,
   (connect_failure_amended [] "s" [("a", .ok 1), ("b", .fail "x")] true rfl
      ⟨("b", .fail "x"), by decide, "x", rfl⟩).2.2 "a" 1⟩

/-- C9, counterexample: deleting a session that does not exist is not an
error-free no-op — `DeleteSession` returns the not-found error. -/
theorem deleteSession_missing_errors :
    (deleteSession ([] : List (String × ManagedSession)) "s").2 ≠ none := by decide

/-- C9, amended: deleting an unknown (in particular, an already-deleted)
session leaves the registry unchanged but returns the session-not-found
error; after a successful delete, deleting the same id again is exactly
that case, so repeated deletion is idempotent on the registry while
reporting an error. -/
theorem deleteSession_amended (sessions : List (String × ManagedSession)) (sid : String) :
    (sessions.lookup sid = none →
      deleteSession sessions sid = (sessions, some (sessionNotFoundMsg sid))) ∧
    (∀ reg', deleteSession sessions sid = (reg', none) →
      deleteSession reg' sid = (reg', some (sessionNotFoundMsg sid))) := by
  constructor
  · intro h
    simp [deleteSession, h]
  · intro reg' h
    unfold deleteSession at h
    cases hl : sessions.lookup sid with
    | none => simp only [hl] at h; simp at h
    | some s =>
      simp only [hl] at h
      by_cases hc : s.hubCloseOk
      · simp only [hc, if_true] at h
        have h1 : sessions.filter (fun p => p.1 != sid) = reg' := congrArg Prod.fst h
        have hnone : reg'.lookup sid = none := by
          rw [← h1]; exact lookup_filter_self_none sessions sid
        simp [deleteSession, hnone]
      · simp only [hc, if_false] at h
        simp at h

/-- C9 witness: the amended theorem at a concrete registry — a missing
id errors without touching the registry, and a second delete after a
successful one errors as well. -/
theorem deleteSession_amended_witness :
    deleteSession [("t", ManagedSession.mk true "d")] "x" =
      ([("t", ManagedSession.mk true "d")], some (sessionNotFoundMsg "x")) ∧
    deleteSession [] "t" = ([], some (sessionNotFoundMsg "t")) :=
  ⟨(deleteSession_amended [("t", ManagedSession.mk true "d")] "x").1 rfl,
   (deleteSession_amended [("t", ManagedSession.mk true "d")] "t").2 [] (by decide)⟩

/-- C4: overwriting an existing empty file passes the quota checks and
succeeds, but the stats update treats the write as the creation of a new
file (`existingSize == 0`), incrementing the file count to 2 while the
directory still holds a single file.  The code's own comment says the
count check and increment are meant for new files only, and the spec's
invariant requires the stats to stay consistent with the on-disk
contents, so this is a slip in the code. -/
theorem writeFile_overwrite_empty_stats_bug :
    (dirWriteFile ⟨"workspace", "/ws", false, 100, 10, 1000⟩
        ⟨[("a", "")], ⟨0, 1, 0⟩⟩ "a" "x").2 = none ∧
    statsConsistent ⟨[("a", "")], ⟨0, 1, 0⟩⟩ ∧
    (dirWriteFile ⟨"workspace", "/ws", false, 100, 10, 1000⟩
        ⟨[("a", "")], ⟨0, 1, 0⟩⟩ "a" "x").1.stats.fileCount = 2 ∧
    diskFileCount (dirWriteFile ⟨"workspace", "/ws", false, 100, 10, 1000⟩
        ⟨[("a", "")], ⟨0, 1, 0⟩⟩ "a" "x").1.files = 1 ∧
    ¬ statsConsistent (dirWriteFile ⟨"workspace", "/ws", false, 100, 10, 1000⟩
        ⟨[("a", "")], ⟨0, 1, 0⟩⟩ "a" "x").1 := by
  decide

/-- C5: every reachable client state holds a catalog produced by the
reserved-name filter, so a tool named `export` never appears in any
client catalog, and hence neither in the grouped map returned by
`Tools()` nor in the per-server tool lists from which the module tree
and `ServerTools` output are generated. -/
theorem export_never_in_grouped_tools (clients : List (String × McpClientState))
    (h : ∀ p ∈ clients, ClientReachable p.2) :
    ∀ q ∈ hubGroupedTools clients, ∀ t ∈ q.2, t.name ≠ "export" := by
  have key : ∀ st, ClientReachable st → ∀ t ∈ st.tools, t.name ≠ "export" := by
    intro st hst
    induction hst with
    | opened fetched =>
      intro t ht
      have := (List.mem_filter.mp ht).2
      simpa using this
    | refreshed st fetched _ _ =>
      intro t ht
      have := (List.mem_filter.mp ht).2
      simpa using this
  intro q hq t ht
  obtain ⟨p, hp, rfl⟩ := List.mem_map.mp hq
  exact key p.2 (h p hp) t ht

/-- C5 witness: a catalog fetched with an `export` tool in it, run
through the theorem at the surviving tool. -/
theorem export_never_in_grouped_tools_witness :
    (Tool.mk "ok" "d" none none).name ≠ "export" :=
  export_never_in_grouped_tools
    [("s", clientOpen [Tool.mk "export" "" none none, Tool.mk "ok" "d" none none])]
    (by
      intro p hp
      have hp' : p = ("s", clientOpen [Tool.mk "export" "" none none, Tool.mk "ok" "d" none none]) := by
        simpa using hp
      rw [hp']
      exact ClientReachable.opened _)
    ("s", [Tool.mk "ok" "d" none none])
    (show ("s", [Tool.mk "ok" "d" none none]) ∈ [("s", [Tool.mk "ok" "d" none none])] from
      List.mem_cons_self _ _)
    (Tool.mk "ok" "d" none none)
    (List.mem_cons_self _ _)

/-- C6, counterexample: a `..` path into a read-only directory is
rejected by the earlier read-only check, not with the path-traversal
error the claim names. -/
theorem dotdot_readonly_write_cex :
    sfsDispatch [⟨"ro", "/r", true, 10, 10, 10⟩] (.write "c") "ro/../x" ≠
      .rejected .pathTraversal ∧
    sfsDispatch [⟨"ro", "/r", true, 10, 10, 10⟩] (.write "c") "ro/../x" =
      .rejected (.readOnlyDir "ro") := by
  decide

/-- C6, amended: an operation whose parsed relative path contains `..`
never proceeds to a directory operation (no filesystem access is
attempted); it is rejected with the path-traversal error, except that a
write or delete aimed at a read-only directory is rejected earlier with
the read-only error. -/
theorem dotdot_rejected_amended (dirs : List DirectoryConfig) (op : FsOp)
    (userPath dirName relPath : String)
    (hparse : parsePath (dirs.map (fun c => c.name)) userPath = .ok (dirName, relPath))
    (hdd : strContainsSubstr relPath ".." = true) :
    (∀ dn rp, sfsDispatch dirs op userPath ≠ .proceeded dn rp) ∧
    (∀ cfg, findDir dirs dirName = some cfg → (op.isMutating && cfg.readOnly) = false →
      sfsDispatch dirs op userPath = .rejected .pathTraversal) ∧
    (∀ cfg, findDir dirs dirName = some cfg → (op.isMutating && cfg.readOnly) = true →
      sfsDispatch dirs op userPath = .rejected (.readOnlyDir dirName)) := by
  have hval : ∀ root, validatePath root relPath = .error .pathTraversal := by
    intro root
    unfold validatePath
    rw [if_pos (by exact hdd)]
  cases hfd : findDir dirs dirName with
  | none =>
    have step : sfsDispatch dirs op userPath =
        .rejected (.unknownDirectory dirName) := by
      simp only [sfsDispatch, hparse, hfd]
    rw [step]
    refine ⟨fun dn rp h => DispatchOutcome.noConfusion h, ?_, ?_⟩ <;>
      · intro cfg hcfg
        exact absurd hcfg (by simp)
  | some cfg =>
    by_cases hro : (op.isMutating && cfg.readOnly) = true
    · have step : sfsDispatch dirs op userPath =
          .rejected (.readOnlyDir dirName) := by
        simp [sfsDispatch, hparse, hfd, hro]
      rw [step]
      refine ⟨fun dn rp h => DispatchOutcome.noConfusion h, ?_, fun _ _ _ => rfl⟩
      intro cfg' hcfg' hfalse
      have hcc : cfg = cfg' := Option.some.inj hcfg'
      rw [← hcc, hro] at hfalse
      exact absurd hfalse (by simp)
    · have hro' : (op.isMutating && cfg.readOnly) = false := by
        revert hro; cases op.isMutating && cfg.readOnly <;> simp
      have step : sfsDispatch dirs op userPath = .rejected .pathTraversal := by
        simp [sfsDispatch, hparse, hfd, hro', hval cfg.root]
      rw [step]
      refine ⟨fun dn rp h => DispatchOutcome.noConfusion h, fun _ _ _ => rfl, ?_⟩
      intro cfg' hcfg' htrue
      have hcc : cfg = cfg' := Option.some.inj hcfg'
      rw [← hcc, hro'] at htrue
      exact absurd htrue (by simp)

/-- C6 witness: a `..` read path into a writable directory is rejected
with the path-traversal error. -/
theorem dotdot_rejected_amended_witness :
    sfsDispatch [⟨"ws", "/w", false, 10, 10, 10⟩] .read "ws/../secret" =
      .rejected .pathTraversal :=
  (dotdot_rejected_amended [⟨"ws", "/w", false, 10, 10, 10⟩] .read "ws/../secret"
      "ws" "../secret" rfl rfl).2.1
    ⟨"ws", "/w", false, 10, 10, 10⟩ rfl rfl

/-! ## String utilities (`internal/strutil/strutil.go`) -/

/-- The separator set of `ToPascalCase` (underscore, dash, space). -/
def isSepChar (c : Char) : Bool := c = '_' || c = '-' || c = ' '

/-- Split a character list at every separator, keeping empty segments
(models the splitting part of `strings.FieldsFunc`). -/
def splitSeps : List Char → List (List Char)
  | [] => [[]]
  | x :: xs =>
    match splitSeps xs with
    | [] => [[]]
    | seg :: rest => if isSepChar x then [] :: seg :: rest else (x :: seg) :: rest

/-- Models `strings.FieldsFunc` with the separator set above: the
non-empty segments. -/
def splitCaseParts (s : String) : List String :=
  ((splitSeps s.data).filter (fun seg => !seg.isEmpty)).map String.mk

/-- Upper-case the first character (models `strings.ToUpper(part[0:1]) +
part[1:]` for the ASCII identifiers at hand). -/
def capitalizeFirst (s : String) : String :=
  match s.data with
  | [] => s
  | c :: rest => String.mk (c.toUpper :: rest)

/-- Lower-case the first character. -/
def lowerFirst (s : String) : String :=
  match s.data with
  | [] => s
  | c :: rest => String.mk (c.toLower :: rest)

/-- Models `strings.Join` (and `String.join` for an empty separator). -/
def joinSep (sep : String) : List String → String
  | [] => ""
  | [s] => s
  | s :: t :: rest => s ++ sep ++ joinSep sep (t :: rest)

/-- Embeds `strutil.ToPascalCase`. -/
def toPascalCase (s : String) : String :=
  joinSep "" ((splitCaseParts s).map capitalizeFirst)

/-- Embeds `strutil.ToCamelCase`. -/
def toCamelCase (s : String) : String :=
  if s.length = 0 then s
  else if !(s.data.any isSepChar) then lowerFirst s
  else
    let pascal := toPascalCase s
    if pascal.length = 0 then pascal else lowerFirst pascal

/-! ## TypeScript type model (`internal/codegen/types.go`) -/

mutual

/-- The generator's type tree (`TSType`): kind is one of `primitive`,
`array`, `union`, `interface`, `type`. -/
inductive TSType where
  | mk (kind name rawType description : String) (properties : List TSProperty)
      (elementType : Option TSType) (unionTypes : List TSType) : TSType

/-- One interface property (`TSProperty`). -/
inductive TSProperty where
  | mk (name : String) (type : TSType) (isOptional : Bool) (description : String) : TSProperty

end

def TSType.kind : TSType → String
  | .mk k _ _ _ _ _ _ => k

def TSType.name : TSType → String
  | .mk _ n _ _ _ _ _ => n

def TSType.rawType : TSType → String
  | .mk _ _ r _ _ _ _ => r

def TSType.description : TSType → String
  | .mk _ _ _ d _ _ _ => d

def TSType.properties : TSType → List TSProperty
  | .mk _ _ _ _ p _ _ => p

def TSType.elementType : TSType → Option TSType
  | .mk _ _ _ _ _ e _ => e

def TSType.unionTypes : TSType → List TSType
  | .mk _ _ _ _ _ _ u => u

def TSProperty.name : TSProperty → String
  | .mk n _ _ _ => n

def TSProperty.type : TSProperty → TSType
  | .mk _ t _ _ => t

def TSProperty.isOptional : TSProperty → Bool
  | .mk _ _ o _ => o

def TSProperty.description : TSProperty → String
  | .mk _ _ _ d => d

/-- A primitive type value (`&TSType{Kind: "primitive", RawType: raw}`). -/
def primType (raw : String) : TSType := .mk "primitive" "" raw "" [] none []

/-- An interface type value. -/
def mkInterface (name : String) (props : List TSProperty) (desc : String) : TSType :=
  .mk "interface" name "" desc props none []

/-- A `type`-alias value. -/
def mkTypeAlias (name raw desc : String) : TSType := .mk "type" name raw desc [] none []

/-- A union type value. -/
def mkUnion (name : String) (types : List TSType) : TSType :=
  .mk "union" name "" "" [] none types

/-- An array type value. -/
def mkArray (name : String) (elem : Option TSType) : TSType :=
  .mk "array" name "" "" [] elem []

mutual

/-- Embeds `SchemaConverter.typeToString`
(schema_converter.go:372-399). -/
def typeToString : TSType → String
  | .mk kind name rawType _ _ elementType unionTypes =>
    if kind = "primitive" then rawType
    else if kind = "array" then
      match elementType with
      | some et => typeToString et ++ "[]"
      | none => "any[]"
    else if kind = "union" then joinSep " | " (typeToStringList unionTypes)
    else if kind = "interface" ∨ kind = "type" then
      if name ≠ "" then name else "any"
    else "any"

/-- `typeToString` mapped over a list. -/
def typeToStringList : List TSType → List String
  | [] => []
  | t :: rest => typeToString t :: typeToStringList rest

end

/-! ## Schema converter (`internal/codegen/schema_converter.go`)

`GenTable` models the converter's `generatedTypes` map; insertion order
is tracked but only lookup and overwrite are used.  Each mutually
recursive Go function becomes a fuel-indexed function; exhausting the
fuel is an explicit error, so every theorem conditioned on an `ok`
result holds for every fuel value. -/

abbrev GenTable := List (String × TSType)

/-- Conversion failures: the `invalid type format` error of
`ConvertSchema`, plus fuel exhaustion (an artifact of the embedding). -/
inductive ConvErr where
  | invalidTypeFormat : ConvErr
  | fuelExhausted : ConvErr
  deriving Repr, DecidableEq

/-- Map-overwrite insertion into the table. -/
def tableInsert (tbl : GenTable) (k : String) (v : TSType) : GenTable :=
  if tbl.any (fun p => p.1 == k) then tbl.map (fun p => if p.1 == k then (k, v) else p)
  else tbl ++ [(k, v)]

/-- Field access on a decoded schema (`schema["key"]`). -/
def jLookup : Json → String → Option Json
  | .obj fields, key => fields.lookup key
  | _, _ => none

/-- Models `schema["description"].(string)`. -/
def getDesc (schema : Json) : String :=
  match jLookup schema "description" with
  | some (.str s) => s
  | _ => ""

/-- Models the `required` set: the string entries of
`schema["required"].([]interface{})`. -/
def getRequired (schema : Option Json) : List String :=
  match (match schema with | some s => jLookup s "required" | none => none) with
  | some (.arr vals) => vals.filterMap (fun v => match v with | .str s => some s | _ => none)
  | _ => []

/-- The literal `convertEnum` renders for one enum value (`%q` for
strings, `%v` otherwise; non-scalar values do not occur in the claims
and are approximated by their JSON rendering). -/
def enumLiteral : Json → String
  | .str s => "\"" ++ escapeJsonString s ++ "\""
  | .num n => intToString n
  | .bool b => if b then "true" else "false"
  | j => j.render

/-- Embeds `convertEnum` (schema_converter.go:269-296): a union of
literal primitives, named after the caller. -/
def convertEnum (enumValues : List Json) (typeName : String) : TSType :=
  mkUnion typeName (enumValues.map (fun v => primType (enumLiteral v)))

mutual

/-- Embeds `ConvertSchema` (schema_converter.go:23-76): nil schema and
missing `type` default to `any` (after the oneOf/anyOf/allOf checks); a
`type` string dispatches on the kind, a `type` array builds a union, and
any other `type` value is the invalid-format error.  The `generatedTypes`
memo table is consulted first and threaded through. -/
def convertSchema : Nat → GenTable → Option Json → String → Except ConvErr (TSType × GenTable)
  | 0, _, _, _ => .error .fuelExhausted
  | _ + 1, tbl, none, _ => .ok (primType "any", tbl)
  | fuel + 1, tbl, some schema, typeName =>
    match tbl.lookup typeName with
    | some existing => .ok (existing, tbl)
    | none =>
      match jLookup schema "type" with
      | none =>
        match jLookup schema "oneOf" with
        | some (.arr items) => convertUnion fuel tbl items typeName
        | _ =>
          match jLookup schema "anyOf" with
          | some (.arr items) => convertUnion fuel tbl items typeName
          | _ =>
            match jLookup schema "allOf" with
            | some (.arr items) => convertIntersection fuel tbl items typeName
            | _ => .ok (primType "any", tbl)
      | some (.str t) => convertSingleType fuel tbl (some schema) t typeName
      | some (.arr types) => convertTypeArray fuel tbl types typeName
      | some _ => .error .invalidTypeFormat

/-- Embeds `convertSingleType` (schema_converter.go:79-121). -/
def convertSingleType : Nat → GenTable → Option Json → String → String →
    Except ConvErr (TSType × GenTable)
  | 0, _, _, _, _ => .error .fuelExhausted
  | fuel + 1, tbl, schema, typeStr, typeName =>
    if typeStr = "string" then
      match (match schema with | some s => jLookup s "enum" | none => none) with
      | some (.arr vals) => .ok (convertEnum vals typeName, tbl)
      | _ => .ok (primType "string", tbl)
    else if typeStr = "number" ∨ typeStr = "integer" then .ok (primType "number", tbl)
    else if typeStr = "boolean" then .ok (primType "boolean", tbl)
    else if typeStr = "null" then .ok (primType "null", tbl)
    else if typeStr = "array" then convertArray fuel tbl schema typeName
    else if typeStr = "object" then convertObject fuel tbl schema typeName
    else .ok (primType "any", tbl)

/-- Embeds `convertTypeArray` (schema_converter.go:124-156): convert
each string entry (the slice index advances over skipped entries) and
collapse empty and singleton unions. -/
def convertTypeArray (fuel : Nat) (tbl : GenTable) (types : List Json) (typeName : String) :
    Except ConvErr (TSType × GenTable) :=
  match fuel with
  | 0 => .error .fuelExhausted
  | fuel + 1 => do
    let (unionTypes, tbl') ← convertTypeArrayList fuel tbl types typeName 0
    match unionTypes with
    | [] => Except.ok (primType "any", tbl')
    | [u] => Except.ok (u, tbl')
    | us => Except.ok (mkUnion typeName us, tbl')

/-- The loop of `convertTypeArray`. -/
def convertTypeArrayList : Nat → GenTable → List Json → String → Nat →
    Except ConvErr (List TSType × GenTable)
  | 0, _, _, _, _ => .error .fuelExhausted
  | _ + 1, tbl, [], _, _ => .ok ([], tbl)
  | fuel + 1, tbl, t :: rest, typeName, i =>
    match t with
    | .str typeStr => do
      let (sub, tbl') ← convertSingleType fuel tbl none typeStr
        (typeName ++ "_" ++ natToString i)
      let (subs, tbl'') ← convertTypeArrayList fuel tbl' rest typeName (i + 1)
      Except.ok (sub :: subs, tbl'')
    | _ => convertTypeArrayList fuel tbl rest typeName (i + 1)

/-- Embeds `convertObject` (schema_converter.go:159-241): the
`Record<string, T>` shapes when `properties` is absent, and otherwise an
interface with one property per entry — iterated in the order the Go
runtime happens to enumerate the `properties` map, which the field-list
order models — registered in the table. -/
def convertObject (fuel : Nat) (tbl : GenTable) (schema : Option Json) (typeName : String) :
    Except ConvErr (TSType × GenTable) :=
  match fuel with
  | 0 => .error .fuelExhausted
  | fuel + 1 =>
    let properties := match schema with | some s => jLookup s "properties" | none => none
    let props : Option (List (String × Json)) :=
      match properties with | some (.obj fs) => some fs | _ => none
    let additionalProps := match schema with
      | some s => jLookup s "additionalProperties" | none => none
    match props with
    | none =>
      match additionalProps with
      | some (.obj afs) => do
        let (valueType, tbl') ← convertSchema fuel tbl (some (.obj afs)) (typeName ++ "Value")
        Except.ok (mkTypeAlias typeName
          ("Record<string, " ++ typeToString valueType ++ ">") "", tbl')
      | some (.bool true) => .ok (mkTypeAlias typeName "Record<string, any>" "", tbl)
      | _ => .ok (mkTypeAlias typeName "Record<string, any>" "", tbl)
    | some fields => do
      let (tsProps, tbl') ← convertPropsList fuel tbl fields typeName (getRequired schema)
      let desc := match schema with | some s => getDesc s | none => ""
      let tsType := mkInterface typeName tsProps desc
      Except.ok (tsType, tableInsert tbl' typeName tsType)

/-- The property loop of `convertObject`: non-object property schemas
are skipped, the rest convert under `typeName ++ PascalCase(propName)`,
with optionality decided by the `required` set. -/
def convertPropsList : Nat → GenTable → List (String × Json) → String → List String →
    Except ConvErr (List TSProperty × GenTable)
  | 0, _, _, _, _ => .error .fuelExhausted
  | _ + 1, tbl, [], _, _ => .ok ([], tbl)
  | fuel + 1, tbl, (propName, propSchema) :: rest, typeName, required =>
    match propSchema with
    | .obj pfs => do
      let (propType, tbl') ← convertSchema fuel tbl (some (.obj pfs))
        (typeName ++ toPascalCase propName)
      let prop := TSProperty.mk propName propType (!(required.contains propName))
        (getDesc (.obj pfs))
      let (props, tbl'') ← convertPropsList fuel tbl' rest typeName required
      Except.ok (prop :: props, tbl'')
    | _ => convertPropsList fuel tbl rest typeName required

/-- Embeds `convertArray` (schema_converter.go:244-266). -/
def convertArray (fuel : Nat) (tbl : GenTable) (schema : Option Json) (typeName : String) :
    Except ConvErr (TSType × GenTable) :=
  match fuel with
  | 0 => .error .fuelExhausted
  | fuel + 1 =>
    match (match schema with | some s => jLookup s "items" | none => none) with
    | some (.obj fields) => do
      let (elem, tbl') ← convertSchema fuel tbl (some (.obj fields)) (typeName ++ "Item")
      Except.ok (mkArray typeName (some elem), tbl')
    | _ => .ok (mkArray "" (some (primType "any")), tbl)

/-- Embeds `convertUnion` (schema_converter.go:299-333). -/
def convertUnion (fuel : Nat) (tbl : GenTable) (schemas : List Json) (typeName : String) :
    Except ConvErr (TSType × GenTable) :=
  match fuel with
  | 0 => .error .fuelExhausted
  | fuel + 1 => do
    let (unionTypes, tbl') ← convertUnionList fuel tbl schemas typeName 0
    match unionTypes with
    | [] => Except.ok (primType "any", tbl')
    | [u] => Except.ok (u, tbl')
    | us => Except.ok (mkUnion typeName us, tbl')

/-- The loop of `convertUnion` (also used for `anyOf`). -/
def convertUnionList : Nat → GenTable → List Json → String → Nat →
    Except ConvErr (List TSType × GenTable)
  | 0, _, _, _, _ => .error .fuelExhausted
  | _ + 1, tbl, [], _, _ => .ok ([], tbl)
  | fuel + 1, tbl, s :: rest, typeName, i =>
    match s with
    | .obj fs => do
      let (sub, tbl') ← convertSchema fuel tbl (some (.obj fs))
        (typeName ++ "_" ++ natToString i)
      let (subs, tbl'') ← convertUnionList fuel tbl' rest typeName (i + 1)
      Except.ok (sub :: subs, tbl'')
    | _ => convertUnionList fuel tbl rest typeName (i + 1)

/-- Embeds `convertIntersection` (schema_converter.go:336-369): merge
the properties of the interface members, taking the first non-empty
description; the result is not registered. -/
def convertIntersection (fuel : Nat) (tbl : GenTable) (schemas : List Json) (typeName : String) :
    Except ConvErr (TSType × GenTable) :=
  match fuel with
  | 0 => .error .fuelExhausted
  | fuel + 1 => do
    let (allProps, desc, tbl') ← convertIntersectionList fuel tbl schemas typeName 0
    Except.ok (mkInterface typeName allProps desc, tbl')

/-- The loop of `convertIntersection`. -/
def convertIntersectionList : Nat → GenTable → List Json → String → Nat →
    Except ConvErr (List TSProperty × String × GenTable)
  | 0, _, _, _, _ => .error .fuelExhausted
  | _ + 1, tbl, [], _, _ => .ok ([], "", tbl)
  | fuel + 1, tbl, s :: rest, typeName, i =>
    match s with
    | .obj fs => do
      let (subType, tbl') ← convertSchema fuel tbl (some (.obj fs))
        (typeName ++ "_" ++ natToString i)
      let (restProps, restDesc, tbl'') ← convertIntersectionList fuel tbl' rest typeName (i + 1)
      if subType.kind = "interface" then
        Except.ok (subType.properties ++ restProps,
          (if subType.description ≠ "" then subType.description else restDesc), tbl'')
      else
        Except.ok (restProps, restDesc, tbl'')
    | _ => convertIntersectionList fuel tbl rest typeName (i + 1)

end

/-! ## Dependency-ordered type collection (`typescript.go:513-584`) -/

/-- Collection state: the ordered result list and the seen-set (names
already emitted). -/
abbrev CollectSt := List TSType × List String

mutual

/-- Embeds `addTypeWithDependencies` (typescript.go:529-542). -/
def addTypeWithDependencies : Nat → GenTable → TSType → CollectSt → Except ConvErr CollectSt
  | 0, _, _, _ => .error .fuelExhausted
  | fuel + 1, tbl, t, st =>
    if t.name = "" ∨ st.2.contains t.name then .ok st
    else do
      let st' ← collectDependencies fuel tbl t st
      if st'.2.contains t.name then Except.ok st'
      else Except.ok (st'.1 ++ [t], st'.2 ++ [t.name])

/-- Embeds `collectDependencies` (typescript.go:545-567). -/
def collectDependencies : Nat → GenTable → TSType → CollectSt → Except ConvErr CollectSt
  | 0, _, _, _ => .error .fuelExhausted
  | fuel + 1, tbl, t, st =>
    if t.kind = "interface" then
      addDependentList fuel tbl (t.properties.map TSProperty.type) st
    else if t.kind = "array" then
      match t.elementType with
      | some et => addDependentType fuel tbl et st
      | none => .ok st
    else if t.kind = "union" then
      addDependentList fuel tbl t.unionTypes st
    else .ok st

/-- `addDependentType` folded over a list of types. -/
def addDependentList : Nat → GenTable → List TSType → CollectSt → Except ConvErr CollectSt
  | 0, _, _, _ => .error .fuelExhausted
  | _ + 1, _, [], st => .ok st
  | fuel + 1, tbl, t :: rest, st => do
    let st' ← addDependentType fuel tbl t st
    addDependentList fuel tbl rest st'

/-- Embeds `addDependentType` (typescript.go:570-584). -/
def addDependentType : Nat → GenTable → TSType → CollectSt → Except ConvErr CollectSt
  | 0, _, _, _ => .error .fuelExhausted
  | fuel + 1, tbl, t, st => do
    let st' ←
      if t.name ≠ "" ∧ ¬ (st.2.contains t.name) then
        match tbl.lookup t.name with
        | some genType => addTypeWithDependencies fuel tbl genType st
        | none => Except.ok st
      else Except.ok st
    collectDependencies fuel tbl t st'

end

/-- `addTypeWithDependencies` folded over the top-level interface list
(the loop of `collectNestedTypes`, typescript.go:513-526). -/
def collectNestedList : Nat → GenTable → List TSType → CollectSt → Except ConvErr CollectSt
  | 0, _, _, _ => .error .fuelExhausted
  | _ + 1, _, [], st => .ok st
  | fuel + 1, tbl, t :: rest, st => do
    let st' ← addTypeWithDependencies fuel tbl t st
    collectNestedList fuel tbl rest st'

/-- Embeds `collectNestedTypes`: the dependency-ordered interface
list. -/
def collectNestedTypes (fuel : Nat) (tbl : GenTable) (interfaces : List TSType) :
    Except ConvErr (List TSType) := do
  let st ← collectNestedList fuel tbl interfaces ([], [])
  Except.ok st.1

/-- A generated function (`TSFunction`). -/
structure TSFunction where
  name : String
  description : String
  serverName : String
  toolName : String
  argsTypeName : String
  returnType : String
  hasArgs : Bool
  deriving Repr, DecidableEq

/-- A generated file (`TSFile`). -/
structure TSFile where
  serverName : String
  imports : List String
  interfaces : List TSType
  functions : List TSFunction

/-! ## Rendering (`typescript.go:586-695`) -/

/-- Embeds `sanitizeComment`: escape comment terminators. -/
def sanitizeComment (comment : String) : String :=
  (comment.replace "*/" "*\\/").replace "/*" "/\\*"

/-- Go `%q` for the identifier strings at hand. -/
def goQuote (s : String) : String := "\"" ++ escapeJsonString s ++ "\""

/-- One property line of a rendered interface. -/
def renderProperty (p : TSProperty) : String :=
  (if p.description ≠ "" then "  /** " ++ sanitizeComment p.description ++ " */\n" else "") ++
  "  " ++ p.name ++ (if p.isOptional then "?" else "") ++ ": " ++ typeToString p.type ++ ";\n"

/-- Embeds `renderType` (typescript.go:620-657). -/
def renderType (t : TSType) : String :=
  (if t.description ≠ "" then "/**\n * " ++ sanitizeComment t.description ++ "\n */\n" else "") ++
  (if t.kind = "interface" then
    "export interface " ++ t.name ++ " \x7b\n" ++
      joinSep "" (t.properties.map renderProperty) ++ "\x7d\n"
  else if t.kind = "type" then
    "export type " ++ t.name ++ " = " ++ t.rawType ++ ";\n"
  else if t.kind = "union" then
    "export type " ++ t.name ++ " = " ++ joinSep " | " (t.unionTypes.map typeToString) ++ ";\n"
  else "")

/-- A generated call stub line plus the closing brace
(typescript.go:684-692): the single `callTool` invocation. -/
def stubCall (serverName toolName argsValue : String) : String :=
  "  return await callTool(" ++ goQuote serverName ++ ", " ++ goQuote toolName ++ ", " ++
    argsValue ++ ");\n\x7d\n"

/-- The doc-comment block of a rendered function
(typescript.go:663-673). -/
def renderFunctionDoc (fn : TSFunction) : String :=
  "/**\n" ++
  (if fn.description ≠ "" then " * " ++ sanitizeComment fn.description ++ "\n"
   else " * Call tool: " ++ fn.toolName ++ "\n") ++
  " * \n * Returns parsed response - structure depends on tool implementation.\n */\n"

/-- The signature line of a rendered function (typescript.go:676-682). -/
def renderFunctionSig (fn : TSFunction) : String :=
  "export async function " ++ fn.name ++ "(" ++
  (if fn.hasArgs then "args: " ++ fn.argsTypeName else "") ++
  "): Promise<" ++ fn.returnType ++ "> \x7b\n"

/-- Embeds `renderFunction` (typescript.go:660-695): doc comment,
signature, and the stub that passes `args` when the tool has arguments
and the literal empty object otherwise. -/
def renderFunction (fn : TSFunction) : String :=
  renderFunctionDoc fn ++ renderFunctionSig fn ++
    stubCall fn.serverName fn.toolName (if fn.hasArgs then "args" else "\x7b\x7d")

/-- Embeds `renderFile` (typescript.go:586-617): header, imports,
interfaces, functions. -/
def renderFile (file : TSFile) : String :=
  "/**\n * Generated MCP tool definitions for: " ++ file.serverName ++
    "\n * This file is auto-generated. Do not edit manually.\n */\n\n" ++
  (if file.imports.length > 0 then
    joinSep "" (file.imports.map (fun imp => imp ++ "\n")) ++ "\n"
  else "") ++
  joinSep "" (file.interfaces.map (fun i => renderType i ++ "\n")) ++
  joinSep "" (file.functions.map (fun f => renderFunction f ++ "\n"))

/-! ## Per-tool file generation (`typescript.go:436-510`) -/

/-- Models the `ok && len > 0` test on a schema's
`map[string]interface{}` assertion: the field list when the schema is a
non-empty JSON object. -/
def schemaNonEmptyObj : Option Json → Option (List (String × Json))
  | some (.obj fields) => if fields.length > 0 then some fields else none
  | _ => none

/-- The argument-type name `GenerateFunctionFile` computes: set exactly
when the input schema is a non-empty object. -/
def toolArgsTypeName (tool : Tool) : String :=
  match schemaNonEmptyObj tool.inputSchema with
  | some _ => toPascalCase tool.name ++ "Args"
  | none => ""

/-- The `TSFunction` value `GenerateFunctionFile` builds
(typescript.go:495-503). -/
def mkToolFunction (serverName : String) (tool : Tool) : TSFunction :=
  { name := toCamelCase tool.name, description := tool.description,
    serverName := serverName, toolName := tool.name,
    argsTypeName := toolArgsTypeName tool,
    returnType := toPascalCase tool.name ++ "Result",
    hasArgs := toolArgsTypeName tool != "" }

/-- The argument-interface stage of `GenerateFunctionFile`
(typescript.go:451-462): convert the input schema when it is a non-empty
object, else contribute nothing. -/
def genArgsStage (fuel : Nat) (inputSchema : Option Json) (argsName : String) :
    Except ConvErr (List TSType × GenTable) :=
  match schemaNonEmptyObj inputSchema with
  | some fields => do
    let (argsType, tbl) ← convertSchema fuel [] (some (Json.obj fields)) argsName
    Except.ok ([argsType], tbl)
  | none => Except.ok ([], [])

/-- The result-type stage of `GenerateFunctionFile`
(typescript.go:464-492): convert a non-empty object output schema, and
degrade to the documented `any` alias otherwise. -/
def genOutputStage (fuel : Nat) (outputSchema : Option Json) (returnType : String)
    (acc : List TSType) (tbl : GenTable) : Except ConvErr (List TSType × GenTable) :=
  match schemaNonEmptyObj outputSchema with
  | some fields => do
    let (resultType, tbl') ← convertSchema fuel tbl (some (Json.obj fields)) returnType
    Except.ok (acc ++ [resultType], tbl')
  | none =>
    Except.ok (acc ++ [mkTypeAlias returnType "any"
      "No output schema defined - structure varies by implementation"], tbl)

/-- Embeds `GenerateFunctionFile` (typescript.go:436-510): a fresh
converter, the argument stage, the result stage, the function value, and
the dependency-ordered interface list. -/
def generateFunctionFile (fuel : Nat) (serverName : String) (tool : Tool) :
    Except ConvErr TSFile := do
  let (argsInterfaces, tbl) ← genArgsStage fuel tool.inputSchema
    (toPascalCase tool.name ++ "Args")
  let (interfaces, tbl') ← genOutputStage fuel tool.outputSchema
    (toPascalCase tool.name ++ "Result") argsInterfaces tbl
  let ordered ← collectNestedTypes fuel tbl' interfaces
  Except.ok { serverName := serverName, imports := [], interfaces := ordered,
              functions := [mkToolFunction serverName tool] }

/-- Conversion followed by emission, the composite the round-trip claim
quantifies over: convert the schema with a fresh per-invocation table
and render the resulting type tree. -/
def emitSchema (fuel : Nat) (rootName : String) (schema : Json) : Except ConvErr String := do
  let (t, _) ← convertSchema fuel [] (some schema) rootName
  Except.ok (renderFile { serverName := rootName, imports := [], interfaces := [t],
                          functions := [] })

/-! ## Support lemmas for the generator theorems -/

theorem append_right_ne_empty (s t : String) (ht : t ≠ "") : s ++ t ≠ "" := by
  intro h
  apply ht
  have hd := congrArg String.data h
  rw [String.data_append] at hd
  exact String.ext (List.append_eq_nil.mp hd).2

theorem except_bind_ok {ε α β : Type} (x : Except ε α) (f : α → Except ε β) (b : β)
    (h : (x >>= f) = .ok b) : ∃ a, x = .ok a ∧ f a = .ok b := by
  cases x with
  | error e => simp [Bind.bind, Except.bind] at h
  | ok a => exact ⟨a, rfl, by simpa [Bind.bind, Except.bind] using h⟩

/-- Every name in the seen-set labels some collected type. -/
def CollectInv (st : CollectSt) : Prop := ∀ n ∈ st.2, ∃ u ∈ st.1, u.name = n

/-- A collection step only appends: collected types and seen names are
preserved, and the seen-set invariant is maintained. -/
def CollectExtends (st st' : CollectSt) : Prop :=
  (∀ x ∈ st.1, x ∈ st'.1) ∧ (∀ n ∈ st.2, n ∈ st'.2) ∧ (CollectInv st → CollectInv st')

theorem CollectExtends.refl (st : CollectSt) : CollectExtends st st :=
  ⟨fun _ hx => hx, fun _ hn => hn, id⟩

theorem CollectExtends.trans {st st₁ st₂ : CollectSt}
    (h1 : CollectExtends st st₁) (h2 : CollectExtends st₁ st₂) : CollectExtends st st₂ :=
  ⟨fun x hx => h2.1 x (h1.1 x hx), fun n hn => h2.2.1 n (h1.2.1 n hn),
   fun hI => h2.2.2 (h1.2.2 hI)⟩

theorem collect_extends (fuel : Nat) :
    (∀ tbl t st st', addTypeWithDependencies fuel tbl t st = .ok st' → CollectExtends st st') ∧
    (∀ tbl t st st', collectDependencies fuel tbl t st = .ok st' → CollectExtends st st') ∧
    (∀ tbl ts st st', addDependentList fuel tbl ts st = .ok st' → CollectExtends st st') ∧
    (∀ tbl t st st', addDependentType fuel tbl t st = .ok st' → CollectExtends st st') := by
  induction fuel with
  | zero =>
    refine ⟨?_, ?_, ?_, ?_⟩ <;> · intro _ _ _ _ h; exact Except.noConfusion h
  | succ fuel ih =>
    obtain ⟨ihA, ihC, ihL, ihD⟩ := ih
    refine ⟨?_, ?_, ?_, ?_⟩
    · intro tbl t st st' h
      simp only [addTypeWithDependencies] at h
      split at h
      · cases Except.ok.inj h; exact CollectExtends.refl _
      · obtain ⟨st₁, hC, h⟩ := except_bind_ok _ _ _ h
        have e1 := ihC tbl t st st₁ hC
        split at h
        · cases Except.ok.inj h; exact e1
        · cases Except.ok.inj h
          refine e1.trans ⟨fun x hx => List.mem_append_left _ hx,
            fun n hn => List.mem_append_left _ hn, ?_⟩
          intro hInv n hn
          rcases List.mem_append.mp hn with hn | hn
          · obtain ⟨u, hu, hname⟩ := hInv n hn
            exact ⟨u, List.mem_append_left _ hu, hname⟩
          · have hn' : n = t.name := by simpa using hn
            exact ⟨t, List.mem_append_right _ (by simp), hn'.symm⟩
    · intro tbl t st st' h
      simp only [collectDependencies] at h
      split at h
      · exact ihL _ _ _ _ h
      · split at h
        · split at h
          · exact ihD _ _ _ _ h
          · cases Except.ok.inj h; exact CollectExtends.refl _
        · split at h
          · exact ihL _ _ _ _ h
          · cases Except.ok.inj h; exact CollectExtends.refl _
    · intro tbl ts st st' h
      cases ts with
      | nil =>
        simp only [addDependentList] at h
        cases Except.ok.inj h; exact CollectExtends.refl _
      | cons t rest =>
        simp only [addDependentList] at h
        obtain ⟨st₁, hD, hL⟩ := except_bind_ok _ _ _ h
        exact (ihD _ _ _ _ hD).trans (ihL _ _ _ _ hL)
    · intro tbl t st st' h
      simp only [addDependentType] at h
      split at h
      · split at h
        · obtain ⟨st₁, h₁, h₂⟩ := except_bind_ok _ _ _ h
          exact (ihA _ _ _ _ h₁).trans (ihC _ _ _ _ h₂)
        · obtain ⟨st₁, h₁, h₂⟩ := except_bind_ok _ _ _ h
          cases Except.ok.inj h₁
          exact ihC _ _ _ _ h₂
      · obtain ⟨st₁, h₁, h₂⟩ := except_bind_ok _ _ _ h
        cases Except.ok.inj h₁
        exact ihC _ _ _ _ h₂

theorem addType_name_mem (fuel : Nat) (tbl : GenTable) (t : TSType) (st st' : CollectSt)
    (h : addTypeWithDependencies fuel tbl t st = .ok st')
    (hInv : CollectInv st) (hname : t.name ≠ "") :
    ∃ u ∈ st'.1, u.name = t.name := by
  cases fuel with
  | zero => exact Except.noConfusion h
  | succ fuel =>
    simp only [addTypeWithDependencies] at h
    split at h
    · rename_i hcond
      cases Except.ok.inj h
      rcases hcond with hc | hc
      · exact absurd hc hname
      · exact hInv t.name (by simpa using hc)
    · obtain ⟨st₁, hC, h⟩ := except_bind_ok _ _ _ h
      have e1 := (collect_extends fuel).2.1 tbl t st st₁ hC
      split at h
      · rename_i hc
        cases Except.ok.inj h
        exact (e1.2.2 hInv) t.name (by simpa using hc)
      · cases Except.ok.inj h
        exact ⟨t, List.mem_append_right _ (by simp), rfl⟩

theorem collectNestedList_extends (ts : List TSType) :
    ∀ (fuel : Nat) (tbl : GenTable) (st st' : CollectSt),
      collectNestedList fuel tbl ts st = .ok st' → CollectExtends st st' := by
  induction ts with
  | nil =>
    intro fuel tbl st st' h
    cases fuel with
    | zero => exact Except.noConfusion h
    | succ fuel =>
      simp only [collectNestedList] at h
      cases Except.ok.inj h; exact CollectExtends.refl _
  | cons t rest ih =>
    intro fuel tbl st st' h
    cases fuel with
    | zero => exact Except.noConfusion h
    | succ fuel =>
      simp only [collectNestedList] at h
      obtain ⟨st₁, hA, hRest⟩ := except_bind_ok _ _ _ h
      exact ((collect_extends fuel).1 _ _ _ _ hA).trans (ih fuel tbl st₁ st' hRest)

theorem collectNestedList_name_mem (ts : List TSType) :
    ∀ (fuel : Nat) (tbl : GenTable) (st st' : CollectSt),
      collectNestedList fuel tbl ts st = .ok st' → CollectInv st →
      ∀ t ∈ ts, t.name ≠ "" → ∃ u ∈ st'.1, u.name = t.name := by
  induction ts with
  | nil => intro fuel tbl st st' h hInv t ht; simp at ht
  | cons t₀ rest ih =>
    intro fuel tbl st st' h hInv t ht hname
    cases fuel with
    | zero => exact Except.noConfusion h
    | succ fuel =>
      simp only [collectNestedList] at h
      obtain ⟨st₁, hA, hRest⟩ := except_bind_ok _ _ _ h
      rcases List.mem_cons.mp ht with rfl | ht
      · obtain ⟨u, hu, hname'⟩ := addType_name_mem fuel tbl t st st₁ hA hInv hname
        exact ⟨u, (collectNestedList_extends rest fuel tbl st₁ st' hRest).1 u hu, hname'⟩
      · have hInv₁ : CollectInv st₁ := ((collect_extends fuel).1 _ _ _ _ hA).2.2 hInv
        exact ih fuel tbl st₁ st' hRest hInv₁ t ht hname

theorem collectNestedTypes_name_mem (fuel : Nat) (tbl : GenTable) (interfaces : List TSType)
    (ordered : List TSType) (h : collectNestedTypes fuel tbl interfaces = .ok ordered) :
    ∀ t ∈ interfaces, t.name ≠ "" → ∃ u ∈ ordered, u.name = t.name := by
  intro t ht hname
  unfold collectNestedTypes at h
  obtain ⟨st, hL, hok⟩ := except_bind_ok _ _ _ h
  have hInv : CollectInv ([], []) := by intro n hn; simp at hn
  obtain ⟨u, hu, hname'⟩ := collectNestedList_name_mem interfaces fuel tbl ([], []) st hL hInv t ht hname
  cases Except.ok.inj hok
  exact ⟨u, hu, hname'⟩

theorem convertSchema_object_shape (fuel : Nat) (tbl : GenTable) (s : Json) (N : String)
    (t : TSType) (tbl₂ : GenTable)
    (hmemo : tbl.lookup N = none)
    (htype : jLookup s "type" = some (.str "object"))
    (pfs : List (String × Json))
    (hprops : jLookup s "properties" = some (.obj pfs))
    (h : convertSchema fuel tbl (some s) N = .ok (t, tbl₂)) :
    t.name = N ∧ t.kind = "interface" := by
  cases fuel with
  | zero => exact Except.noConfusion h
  | succ fuel =>
    simp only [convertSchema, hmemo, htype] at h
    cases fuel with
    | zero => exact Except.noConfusion h
    | succ fuel =>
      simp only [convertSingleType] at h
      rw [if_pos trivial] at h
      cases fuel with
      | zero => exact Except.noConfusion h
      | succ fuel =>
        simp only [convertObject, hprops] at h
        obtain ⟨⟨tsProps, tbl₁⟩, hconv, hok⟩ := except_bind_ok _ _ _ h
        have := Except.ok.inj hok
        have ht : t = mkInterface N tsProps (getDesc s) := (Prod.mk.injEq _ _ _ _ ▸ this).1.symm
        rw [ht]
        exact ⟨rfl, rfl⟩

theorem genOutputStage_acc (fuel : Nat) (os : Option Json) (rt : String)
    (acc : List TSType) (tbl : GenTable) (interfaces : List TSType) (tbl' : GenTable)
    (h : genOutputStage fuel os rt acc tbl = .ok (interfaces, tbl')) :
    ∃ suffix, interfaces = acc ++ suffix := by
  unfold genOutputStage at h
  split at h
  · obtain ⟨⟨rt', tblx⟩, hc, hok⟩ := except_bind_ok _ _ _ h
    have := Except.ok.inj hok
    exact ⟨[rt'], ((Prod.mk.injEq _ _ _ _ ▸ this).1).symm⟩
  · have := Except.ok.inj h
    exact ⟨_, ((Prod.mk.injEq _ _ _ _ ▸ this).1).symm⟩

theorem generateFunctionFile_ok_decomp (fuel : Nat) (serverName : String) (tool : Tool)
    (file : TSFile) (h : generateFunctionFile fuel serverName tool = .ok file) :
    ∃ argsInterfaces tbl interfaces tbl' ordered,
      genArgsStage fuel tool.inputSchema (toPascalCase tool.name ++ "Args") =
        .ok (argsInterfaces, tbl) ∧
      genOutputStage fuel tool.outputSchema (toPascalCase tool.name ++ "Result")
        argsInterfaces tbl = .ok (interfaces, tbl') ∧
      collectNestedTypes fuel tbl' interfaces = .ok ordered ∧
      file = ⟨serverName, [], ordered, [mkToolFunction serverName tool]⟩ := by
  unfold generateFunctionFile at h
  obtain ⟨⟨argsInterfaces, tbl⟩, h1, h⟩ := except_bind_ok _ _ _ h
  obtain ⟨⟨interfaces, tbl'⟩, h2, h⟩ := except_bind_ok _ _ _ h
  obtain ⟨ordered, h3, h⟩ := except_bind_ok _ _ _ h
  exact ⟨argsInterfaces, tbl, interfaces, tbl', ordered, h1, h2, h3, (Except.ok.inj h).symm⟩

instance instDecidableEqExcept {ε α : Type} [DecidableEq ε] [DecidableEq α] :
    DecidableEq (Except ε α)
  | .error a, .error b =>
    if h : a = b then .isTrue (by rw [h]) else .isFalse (fun hh => h (by cases hh; rfl))
  | .error _, .ok _ => .isFalse (fun hh => Except.noConfusion hh)
  | .ok _, .error _ => .isFalse (fun hh => Except.noConfusion hh)
  | .ok a, .ok b =>
    if h : a = b then .isTrue (by rw [h]) else .isFalse (fun hh => h (by cases hh; rfl))

/-- C7, counterexample: the tool `foo` has the non-empty input schema
`\x7b"type": "string"\x7d`, so the claim requires an argument interface;
the generated file's function passes `args` (hasArgs is true) but no
declaration named `FooArgs` is emitted — the converted input type is an
anonymous primitive that the dependency collector drops. -/
theorem generateFunctionFile_nonobject_input_cex :
    Except.map
        (fun file => (file.functions.map (fun f => f.hasArgs),
          decide (∃ t ∈ file.interfaces, t.name = "FooArgs")))
        (generateFunctionFile 20 "srv"
          (Tool.mk "foo" "" (some (Json.obj [("type", Json.str "string")])) none)) =
      Except.ok ([true], false) := by
  rfl

theorem renderFunction_stub (fn : TSFunction) :
    renderFunction fn = (renderFunctionDoc fn ++ renderFunctionSig fn) ++
      stubCall fn.serverName fn.toolName (if fn.hasArgs then "args" else "\x7b\x7d") := rfl

/-- C7, amended: whenever `GenerateFunctionFile` succeeds, the file
holds exactly the one generated function; if the input schema is empty
or absent the function has no arguments, its stub passes the literal
empty object, and the file is identical to the one generated for the
same tool without an input schema (in particular no argument interface
is emitted); if the input schema is a non-empty object the function
takes `args : <Pascal>Args` and its stub passes `args`, and when that
schema moreover declares `"type": "object"` with a `properties` object —
the shape every MCP tool uses — a type declaration named `<Pascal>Args`
appears among the emitted declarations.  (For a non-empty non-object
input schema the stub still passes `args` but no argument declaration is
emitted, as the counterexample shows.) -/
theorem generateFunctionFile_amended (fuel : Nat) (serverName : String) (tool : Tool)
    (file : TSFile) (h : generateFunctionFile fuel serverName tool = .ok file) :
    file.functions = [mkToolFunction serverName tool] ∧
    (schemaNonEmptyObj tool.inputSchema = none →
      (mkToolFunction serverName tool).hasArgs = false ∧
      (∃ pre, renderFunction (mkToolFunction serverName tool) =
        pre ++ stubCall serverName tool.name "\x7b\x7d") ∧
      generateFunctionFile fuel serverName
        { tool with inputSchema := none } = .ok file) ∧
    (schemaNonEmptyObj tool.inputSchema ≠ none →
      (mkToolFunction serverName tool).hasArgs = true ∧
      (mkToolFunction serverName tool).argsTypeName = toPascalCase tool.name ++ "Args" ∧
      (∃ pre, renderFunction (mkToolFunction serverName tool) =
        pre ++ stubCall serverName tool.name "args")) ∧
    (∀ fields pfs, schemaNonEmptyObj tool.inputSchema = some fields →
      jLookup (Json.obj fields) "type" = some (Json.str "object") →
      jLookup (Json.obj fields) "properties" = some (Json.obj pfs) →
      ∃ u ∈ file.interfaces, u.name = toPascalCase tool.name ++ "Args") := by
  obtain ⟨argsIf, tbl, ifaces, tbl', ordered, h1, h2, h3, hfile⟩ :=
    generateFunctionFile_ok_decomp fuel serverName tool file h
  refine ⟨by rw [hfile], ?_, ?_, ?_⟩
  · intro hin
    have hargs : toolArgsTypeName tool = "" := by simp [toolArgsTypeName, hin]
    have hfa : (mkToolFunction serverName tool).hasArgs = false := by
      simp [mkToolFunction, hargs]
    refine ⟨hfa, ?_, ?_⟩
    · refine ⟨renderFunctionDoc (mkToolFunction serverName tool) ++
        renderFunctionSig (mkToolFunction serverName tool), ?_⟩
      rw [renderFunction_stub, hfa]
      rfl
    · have hg : generateFunctionFile fuel serverName { tool with inputSchema := none } =
          generateFunctionFile fuel serverName tool := by
        unfold generateFunctionFile
        have e2 : genArgsStage fuel tool.inputSchema (toPascalCase tool.name ++ "Args") =
            Except.ok ([], []) := by simp [genArgsStage, hin]
        have e1 : genArgsStage fuel ({ tool with inputSchema := none } : Tool).inputSchema
            (toPascalCase ({ tool with inputSchema := none } : Tool).name ++ "Args") =
            Except.ok ([], []) := rfl
        rw [e1, e2]
        have e3 : mkToolFunction serverName { tool with inputSchema := none } =
            mkToolFunction serverName tool := by
          simp only [mkToolFunction, toolArgsTypeName, hin]
          rfl
        simp only [e3]
      rw [hg]
      exact h
  · intro hin
    obtain ⟨fields, hf⟩ : ∃ f, schemaNonEmptyObj tool.inputSchema = some f := by
      cases hs : schemaNonEmptyObj tool.inputSchema with
      | none => exact absurd hs hin
      | some f => exact ⟨f, rfl⟩
    have hargs : toolArgsTypeName tool = toPascalCase tool.name ++ "Args" := by
      simp [toolArgsTypeName, hf]
    have hne : toolArgsTypeName tool ≠ "" := by
      rw [hargs]
      exact append_right_ne_empty _ _ (by decide)
    have hfa : (mkToolFunction serverName tool).hasArgs = true := by
      simp only [mkToolFunction]
      exact bne_iff_ne.mpr hne
    refine ⟨hfa, by simp [mkToolFunction, hargs], ?_⟩
    refine ⟨renderFunctionDoc (mkToolFunction serverName tool) ++
      renderFunctionSig (mkToolFunction serverName tool), ?_⟩
    rw [renderFunction_stub, hfa]
    rfl
  · intro fields pfs hf htype hpr
    simp only [genArgsStage, hf] at h1
    obtain ⟨⟨argsType, tblA⟩, hconv, hok₂⟩ := except_bind_ok _ _ _ h1
    have hpair := Except.ok.inj hok₂
    have hargsIf : argsIf = [argsType] := ((Prod.mk.injEq _ _ _ _ ▸ hpair).1).symm
    have hshape := convertSchema_object_shape fuel [] (Json.obj fields)
      (toPascalCase tool.name ++ "Args") argsType tblA rfl htype pfs hpr hconv
    obtain ⟨suffix, hsuffix⟩ := genOutputStage_acc fuel tool.outputSchema
      (toPascalCase tool.name ++ "Result") argsIf tbl ifaces tbl' h2
    have hmem : argsType ∈ ifaces := by
      rw [hsuffix, hargsIf]
      exact List.mem_append_left _ (by simp)
    have hnm : argsType.name ≠ "" := by
      rw [hshape.1]
      exact append_right_ne_empty _ _ (by decide)
    obtain ⟨u, hu, huname⟩ := collectNestedTypes_name_mem fuel tbl' ifaces ordered h3
      argsType hmem hnm
    refine ⟨u, ?_, ?_⟩
    · rw [hfile]
      exact hu
    · rw [huname, hshape.1]

/-- C7 witness: the amended theorem at a no-schema tool `do_thing`,
giving the argument-free stub. -/
theorem generateFunctionFile_amended_witness :
    (mkToolFunction "srv" (Tool.mk "do_thing" "" none none)).hasArgs = false ∧
    (∃ pre, renderFunction (mkToolFunction "srv" (Tool.mk "do_thing" "" none none)) =
      pre ++ stubCall "srv" "do_thing" "\x7b\x7d") :=
  have happ := (generateFunctionFile_amended 20 "srv" (Tool.mk "do_thing" "" none none)
    { serverName := "srv", imports := [],
      interfaces := [mkTypeAlias "DoThingResult" "any"
        "No output schema defined - structure varies by implementation"],
      functions := [mkToolFunction "srv" (Tool.mk "do_thing" "" none none)] }
    rfl).2.1 rfl
  ⟨happ.1, happ.2.1⟩

/-- C8, counterexample: the two schema values below decode the same JSON
object — their `properties` field lists are permutations of one another,
which is exactly the freedom Go's randomized map iteration order has —
yet converting and emitting them produces different bytes, because
`convertObject` emits the interface's properties in map-iteration
order.  Byte-identical re-emission therefore fails whenever the runtime
enumerates a multi-property `properties` map in a different order. -/
theorem emitSchema_order_dependent_cex :
    ([(("a" : String), Json.obj [("type", Json.str "string")]),
      ("b", Json.obj [("type", Json.str "number")])].Perm
     [("b", Json.obj [("type", Json.str "number")]),
      ("a", Json.obj [("type", Json.str "string")])]) ∧
    emitSchema 20 "Root"
        (Json.obj [("type", Json.str "object"),
          ("properties", Json.obj [("a", Json.obj [("type", Json.str "string")]),
                                   ("b", Json.obj [("type", Json.str "number")])])]) ≠
      emitSchema 20 "Root"
        (Json.obj [("type", Json.str "object"),
          ("properties", Json.obj [("b", Json.obj [("type", Json.str "number")]),
                                   ("a", Json.obj [("type", Json.str "string")])])]) := by
  constructor
  · exact List.Perm.swap _ _ _
  · decide

/-- C8, amended: the emitted text is a deterministic function of the
schema value, the root name, and the order in which the runtime
enumerates each `properties` map (the embedding's field-list order);
re-emission is byte-identical exactly when those enumeration orders
coincide — in particular whenever every `properties` object holds at
most one property, where a permutation leaves nothing to reorder. -/
theorem emitSchema_perm_singleton (fuel : Nat) (name : String)
    (ps₁ ps₂ rest : List (String × Json))
    (hperm : ps₁.Perm ps₂) (hlen : ps₁.length ≤ 1) :
    emitSchema fuel name (Json.obj (("type", Json.str "object") ::
        ("properties", Json.obj ps₁) :: rest)) =
      emitSchema fuel name (Json.obj (("type", Json.str "object") ::
        ("properties", Json.obj ps₂) :: rest)) := by
  have heq : ps₁ = ps₂ := by
    cases ps₁ with
    | nil => exact (List.Perm.eq_nil hperm.symm).symm
    | cons a t =>
      cases t with
      | nil => exact (List.perm_singleton.mp hperm.symm).symm
      | cons b u => simp at hlen
  rw [heq]

/-- C8 witness: the amended theorem at a concrete single-property
schema. -/
theorem emitSchema_perm_singleton_witness :
    emitSchema 20 "Root" (Json.obj [("type", Json.str "object"),
      ("properties", Json.obj [("a", Json.obj [("type", Json.str "string")])])]) =
      emitSchema 20 "Root" (Json.obj [("type", Json.str "object"),
        ("properties", Json.obj [("a", Json.obj [("type", Json.str "string")])])]) :=
  emitSchema_perm_singleton 20 "Root"
    [("a", Json.obj [("type", Json.str "string")])]
    [("a", Json.obj [("type", Json.str "string")])] []
    (List.Perm.refl _) (by decide)

end RunbyteMcp
